import Mathlib

/-!
Shallow embedding of the template-engine repository (tokenizer, parser,
expression evaluator, tree evaluator, HTML escaping) and proofs about its
specification claims.

Conventions of the embedding:
* Strings are processed as `List Char` (the `.data` of a `String`), one Lean
  `Char` per JS UTF-16 unit for the character ranges exercised here.
* JS values are the inductive `JSValue`; machine doubles are restricted to
  integers plus an explicit `NaN` constructor, which covers every numeric
  behaviour the engine's code distinguishes (`=== 0`, `Number.isNaN`,
  `length` arithmetic).
* Code that can throw is translated to `Except`/sum results.
* The one part of the source that is not translated is the
  `new Function(...)` escape hatch for complex expressions
  (src/utils.ts lines 161-201): reaching it is recorded by the explicit
  `ExprOut.unmodeled` constructor rather than being interpreted.
-/

set_option maxRecDepth 20000
set_option maxHeartbeats 1000000

/-- The `\x7b` character (open brace), written via its code point. -/
def obr : Char := Char.ofNat 123

/-- The `\x7d` character (close brace), written via its code point. -/
def cbr : Char := Char.ofNat 125

/-- Percent sign. -/
def pct : Char := '%'

/-- Backslash. -/
def bsl : Char := '\\'

/-- NUL character used in the tokenizer's escaped-brace sentinels. -/
def nulC : Char := Char.ofNat 0

/-- Single quote. -/
def sqC : Char := Char.ofNat 39

/-- Double quote. -/
def dqC : Char := Char.ofNat 34

/-- Backquote. -/
def bqC : Char := Char.ofNat 96

/-- JS `\s` whitespace, restricted to the ASCII whitespace characters
(space, tab, LF, CR, FF, VT); the engine's templates and expressions only
ever use these. -/
def isWs (c : Char) : Bool :=
  c = ' ' || c = '\t' || c = '\n' || c = '\r' || Char.ofNat 12 = c || Char.ofNat 11 = c

/-- JS regex word character `\w` / boundary class: `[A-Za-z0-9_]`. -/
def isWordChar (c : Char) : Bool :=
  c.isAlpha || c.isDigit || c = '_'

/-- Substring test: does `pat` occur (contiguously) inside `l`?
Mirrors JS `String.prototype.includes` / regex literal search. -/
def subOf (pat : List Char) : List Char → Bool
  | [] => pat.isEmpty
  | c :: r => pat.isPrefixOf (c :: r) || subOf pat r

/-- `strContains s pat`: `s.includes(pat)` on Lean strings. -/
def strContains (s pat : String) : Bool := subOf pat.data s.data

/-- `String.prototype.trim` on char lists (JS trims `\s`, modeled by `isWs`). -/
def trimChars (l : List Char) : List Char :=
  ((l.dropWhile isWs).reverse.dropWhile isWs).reverse

/-- `String.prototype.trim`. -/
def strTrim (s : String) : String := String.mk (trimChars s.data)

/-- Decimal digit character for `d < 10`. -/
def digitCh (d : Nat) : Char := Char.ofNat (48 + d % 10)

/-- Fuel-driven decimal printer for naturals (structural on the fuel, so it
reduces in the kernel); `natDec` supplies always-sufficient fuel. -/
def natDecAux : Nat → Nat → List Char
  | 0, _ => []
  | f + 1, n => if n < 10 then [digitCh n] else natDecAux f (n / 10) ++ [digitCh n]

/-- Decimal representation of a natural number, as produced by JS
`String(n)` for a nonnegative integral number. -/
def natDec (n : Nat) : List Char := natDecAux (n + 1) n

/-- JS `String(n)` for an integral number. -/
def intDec (n : Int) : String :=
  if n < 0 then String.mk ('-' :: natDec n.natAbs) else String.mk (natDec n.toNat)

/-- The JS values the engine manipulates.  Numbers are modeled as integers
plus a separate `vNaN`; this covers every numeric distinction the source
makes. -/
inductive JSValue : Type where
  | vNull : JSValue
  | vUndef : JSValue
  | vBool : Bool → JSValue
  | vNum : Int → JSValue
  | vNaN : JSValue
  | vStr : String → JSValue
  | vArr : List JSValue → JSValue
  | vObj : List (String × JSValue) → JSValue

open JSValue

/-- JS `value == null` (matches `null` and `undefined`). -/
def isNullish : JSValue → Bool
  | vNull => true
  | vUndef => true
  | _ => false

/-- JS `typeof`. -/
def jsTypeof : JSValue → String
  | vNull => "object"
  | vUndef => "undefined"
  | vBool _ => "boolean"
  | vNum _ => "number"
  | vNaN => "number"
  | vStr _ => "string"
  | vArr _ => "object"
  | vObj _ => "object"

/-- `isTruthy` from src/utils.ts lines 204-212: nullish and `NaN` are falsy,
numbers are falsy only at zero, strings and arrays are falsy only when
empty, and every other object is truthy. -/
def isTruthy : JSValue → Bool
  | vNull => false
  | vUndef => false
  | vBool b => b
  | vNum n => n != 0
  | vNaN => false
  | vStr s => s.data.length > 0
  | vArr xs => xs.length > 0
  | vObj _ => true

-- Element stringification inside JS `Array.prototype.toString` (i.e.
-- `join(',')`): `null`/`undefined` become empty, nested arrays recurse,
-- everything else stringifies as usual; `arrJoin` is the comma join.
mutual

def arrJoin : List JSValue → String
  | [] => ""
  | [v] => elemStr v
  | v :: w :: t => elemStr v ++ "," ++ arrJoin (w :: t)

def elemStr : JSValue → String
  | vNull => ""
  | vUndef => ""
  | vBool b => if b then "true" else "false"
  | vNum n => intDec n
  | vNaN => "NaN"
  | vStr s => s
  | vArr xs => arrJoin xs
  | vObj _ => "[object Object]"

end

/-- JS `String(value)` for the modeled values. -/
def jsToString : JSValue → String
  | vNull => "null"
  | vUndef => "undefined"
  | vBool b => if b then "true" else "false"
  | vNum n => intDec n
  | vNaN => "NaN"
  | vStr s => s
  | vArr xs => arrJoin xs
  | vObj _ => "[object Object]"

/-- The eight already-encoded entities the `hasEncodedEntities` regex of
`escapeHtml` looks for: `&(amp|lt|gt|quot|#x27|#x2F|#x3A|#x3D);`. -/
def entityPats : List (List Char) :=
  ["&amp;".data, "&lt;".data, "&gt;".data, "&quot;".data,
   "&#x27;".data, "&#x2F;".data, "&#x3A;".data, "&#x3D;".data]

/-- The per-character escaping table of src/utils.ts lines 19-30
(`&`, `<`, `>`, `"`, `'`, `/`, `:`). -/
def escChar (c : Char) : List Char :=
  if c = '&' then "&amp;".data
  else if c = '<' then "&lt;".data
  else if c = '>' then "&gt;".data
  else if c = dqC then "&quot;".data
  else if c = sqC then "&#x27;".data
  else if c = '/' then "&#x2F;".data
  else if c = ':' then "&#x3A;".data
  else [c]

/-- Apply a char-to-chars substitution everywhere (a JS
`replace(/class/g, ...)` over a one-character class). -/
def mapEsc (f : Char → List Char) : List Char → List Char
  | [] => []
  | c :: r => f c ++ mapEsc f r

/-- `=` to `&#x3D;` substitution. -/
def eqSub (c : Char) : List Char :=
  if c = '=' then "&#x3D;".data else [c]

/-- `escapeHtml` core on an already-stringified value, mirroring
src/utils.ts lines 4-44: the encoded-script-tag pass-through carve-out,
the basic escaping table, then the contextual `=` handling. -/
def escapeHtmlStr (s : String) : String :=
  let l := s.data
  let hasEncodedEntities := entityPats.any (fun p => subOf p l)
  if hasEncodedEntities && subOf "&lt;script&gt;".data l && subOf "&lt;/script&gt;".data l then
    s
  else
    let escaped := mapEsc escChar l
    if l.contains '<' && l.contains '>' then
      String.mk (mapEsc eqSub escaped)
    else if "onclick=".data.isPrefixOf l && l.contains dqC then
      String.mk escaped
    else
      String.mk (mapEsc eqSub escaped)

/-- `escapeHtml` from src/utils.ts lines 1-45. -/
def escapeHtml (v : JSValue) : String :=
  if isNullish v then "" else escapeHtmlStr (jsToString v)

/-- Path normalization of src/utils.ts line 51:
`path.replace(/\[(\d+)\]/g, '.$1')`.  Implemented as a left-to-right
automaton; `some ds` means we are inside a `[digits` prefix whose digits
(reversed) are `ds`. -/
def normAux : Option (List Char) → List Char → List Char
  | none, [] => []
  | none, c :: r => if c = '[' then normAux (some []) r else c :: normAux none r
  | some ds, [] => '[' :: ds.reverse
  | some ds, c :: r =>
    if c = ']' then
      if ds.isEmpty then '[' :: ']' :: normAux none r
      else '.' :: ds.reverse ++ normAux none r
    else if c.isDigit then normAux (some (c :: ds)) r
    else if c = '[' then '[' :: ds.reverse ++ normAux (some []) r
    else '[' :: ds.reverse ++ c :: normAux none r

/-- `'a.b.c'.split('.')` on char lists. -/
def splitDots : List Char → List (List Char)
  | [] => [[]]
  | c :: r =>
    if c = '.' then [] :: splitDots r
    else match splitDots r with
      | s :: rest => (c :: s) :: rest
      | [] => [[c]]

/-- Own-property lookup on a JS object literal (first binding wins; the
engine only ever builds objects with distinct keys, and later overriding
writes are modeled by prepending). Missing keys give `undefined`. -/
def fieldGet : List (String × JSValue) → String → JSValue
  | [], _ => vUndef
  | (k, v) :: t, key => if k = key then v else fieldGet t key

/-- Does the object have an own property with this key? -/
def fieldHas : List (String × JSValue) → String → Bool
  | [], _ => false
  | (k, _) :: t, key => k = key || fieldHas t key

/-- Canonical array index: all digits, no redundant leading zero. -/
def parseIndex (l : List Char) : Option Nat :=
  match l with
  | [] => none
  | c :: r =>
    if (c :: r).all Char.isDigit && (r.isEmpty || !(c = '0')) then
      some ((c :: r).foldl (fun a d => a * 10 + (d.toNat - 48)) 0)
    else none

/-- `result[key]` for an object-typed `result` inside `get`'s loop:
object own properties, array elements and array `length`. -/
def jsIndex (v : JSValue) (key : String) : JSValue :=
  match v with
  | vObj fs => fieldGet fs key
  | vArr xs =>
    if key = "length" then vNum xs.length
    else match parseIndex key.data with
      | some n => xs.getD n vUndef
      | none => vUndef
  | _ => vUndef

/-- The key-consuming loop of `get` (src/utils.ts lines 55-79): nullish
intermediates short-circuit to `undefined`; non-object intermediates admit
only string `length`; otherwise index into the object/array. -/
def getPath : JSValue → List String → JSValue
  | v, [] => v
  | v, key :: ks =>
    if isNullish v then vUndef
    else match v with
      | vStr s => if key = "length" then getPath (vNum s.data.length) ks else vUndef
      | vBool _ => vUndef
      | vNum _ => vUndef
      | vNaN => vUndef
      | _ => getPath (jsIndex v key) ks

/-- `get(object, path)` from src/utils.ts lines 47-82. -/
def get (object : JSValue) (path : String) : JSValue :=
  if isNullish object then vUndef
  else getPath object ((splitDots (normAux none path.data)).map String.mk)

/-- `DANGEROUS_GLOBALS` from src/utils.ts lines 85-90. -/
def DANGEROUS_GLOBALS : List String :=
  ["process", "require", "module", "exports",
   "__dirname", "__filename", "Buffer", "setTimeout", "setInterval",
   "eval", "Function", "constructor", "__proto__", "prototype",
   "toString", "valueOf", "hasOwnProperty", "this", "console"]

/-- Word-boundary `\b` test for the character preceding a match. -/
def bdBefore : Option Char → Bool
  | none => true
  | some c => !isWordChar c

/-- Word boundary after `n` characters of `l`. -/
def bdAfterAt (l : List Char) (n : Nat) : Bool :=
  match l.drop n with
  | [] => true
  | d :: _ => !isWordChar d

/-- Scanner for `\bWORD\b` with `WORD` drawn from an alternation list;
`prev` is the character before the current position. -/
def wordBdScan (ws : List (List Char)) : Option Char → List Char → Bool
  | _, [] => false
  | prev, c :: r =>
    (bdBefore prev &&
      ws.any (fun w => w.isPrefixOf (c :: r) && bdAfterAt (c :: r) w.length)) ||
    wordBdScan ws (some c) r

/-- Scanner for `\bWORD\s*TAIL` where `TAIL` is a single required
character after optional whitespace (used for `\bglobal\s*\.` and
`\bfunction\s*\(`). -/
def wordWsCharScan (w : List Char) (tail : Char) : Option Char → List Char → Bool
  | _, [] => false
  | prev, c :: r =>
    (bdBefore prev && w.isPrefixOf (c :: r) &&
      (match ((c :: r).drop w.length).dropWhile isWs with
        | [] => false
        | d :: _ => d = tail)) ||
    wordWsCharScan w tail (some c) r

/-- Scanner for `\b(var|let|const)\s+`: the keyword must be followed
directly by at least one whitespace character. -/
def declKwScan : Option Char → List Char → Bool
  | _, [] => false
  | prev, c :: r =>
    (bdBefore prev &&
      (["var".data, "let".data, "const".data].any (fun w =>
        w.isPrefixOf (c :: r) &&
        (match (c :: r).drop w.length with
          | [] => false
          | d :: _ => isWs d)))) ||
    declKwScan (some c) r

/-- Is this one of the quote characters of the class `['"\x60]`? -/
def isQuoteC (c : Char) : Bool := c = sqC || c = dqC || c = bqC

/-- Match `\[\s*['"\x60]WORD['"\x60]\s*\]` starting right after a `[`. -/
def brQuotedAt (w : List Char) (r : List Char) : Bool :=
  match r.dropWhile isWs with
  | [] => false
  | q :: r2 =>
    isQuoteC q && w.isPrefixOf r2 &&
    (match r2.drop w.length with
      | [] => false
      | q2 :: r3 =>
        isQuoteC q2 &&
        (match r3.dropWhile isWs with
          | [] => false
          | d :: _ => d = ']'))

/-- Scanner for the quoted computed-property denylist patterns. -/
def brQuotedScan (w : List Char) : List Char → Bool
  | [] => false
  | c :: r => (c = '[' && brQuotedAt w r) || brQuotedScan w r

/-- `DANGEROUS_PATTERNS` from src/utils.ts lines 92-105, as a single
decidable test over the expression text. -/
def dangerousPat (l : List Char) : Bool :=
  wordBdScan ["process".data, "require".data, "module".data, "exports".data,
              "__dirname".data, "__filename".data, "Buffer".data] none l ||
  wordBdScan ["setTimeout".data, "setInterval".data, "eval".data,
              "Function".data, "console".data] none l ||
  wordBdScan ["constructor".data, "__proto__".data, "prototype".data] none l ||
  wordBdScan ["this".data] none l ||
  wordWsCharScan "global".data '.' none l ||
  brQuotedScan "constructor".data l ||
  brQuotedScan "__proto__".data l ||
  brQuotedScan "prototype".data l ||
  brQuotedScan "global".data l ||
  wordWsCharScan "function".data '(' none l ||
  subOf "=>".data l ||
  declKwScan none l

/-- First match of `\[([^\]]+)\]` in the expression (the `computedMatch`
of src/utils.ts line 125): at each `[`, the class `[^\]]+` greedily takes
everything up to the next `]`; the match succeeds when that segment is
nonempty and the closing `]` exists, otherwise scanning resumes at the
next position. -/
def firstBracket : List Char → Option (List Char)
  | [] => none
  | c :: r =>
    if c = '[' then
      let seg := r.takeWhile (fun d => !(d = ']'))
      match r.dropWhile (fun d => !(d = ']')) with
      | d :: _ => if d = ']' && !seg.isEmpty then some seg else firstBracket r
      | [] => firstBracket r
    else firstBracket r

/-- `/^\d+$/` over a char list. -/
def isAllDigits (l : List Char) : Bool :=
  !l.isEmpty && l.all Char.isDigit

/-- `/^['"\x60][^'"\x60]*['"\x60]$/` over the raw bracket segment. -/
def isStringLit (l : List Char) : Bool :=
  match l with
  | [] => false
  | c :: r =>
    isQuoteC c &&
    (match r.reverse with
      | [] => false
      | lastc :: midRev => isQuoteC lastc && midRev.all (fun d => !isQuoteC d))

/-- State machine for `simplePropertyPattern`
`/^[a-zA-Z_$][a-zA-Z0-9_$-]*(\.[a-zA-Z0-9_$-]+|\[\d+\])*$/`
(src/utils.ts line 143).  `star` is inside the head identifier (or a dot
segment), `dot` needs at least one segment character, `br1`/`brR` are in a
`[digits]` group, `grp` is right after a closed bracket group. -/
inductive SPState : Type where
  | star : SPState
  | dot : SPState
  | br1 : SPState
  | brR : SPState
  | grp : SPState

/-- First-character class of `simplePropertyPattern`. -/
def isIdentStart (c : Char) : Bool := c.isAlpha || c = '_' || c = '$'

/-- Continuation class `[a-zA-Z0-9_$-]` of `simplePropertyPattern`. -/
def isIdentCont (c : Char) : Bool := c.isAlphanum || c = '_' || c = '$' || c = '-'

/-- Transition function of the `simplePropertyPattern` automaton. -/
def spM : SPState → List Char → Bool
  | .star, [] => true
  | .star, c :: r =>
    if c = '.' then spM .dot r
    else if c = '[' then spM .br1 r
    else isIdentCont c && spM .star r
  | .dot, [] => false
  | .dot, c :: r => isIdentCont c && spM .star r
  | .br1, [] => false
  | .br1, c :: r => c.isDigit && spM .brR r
  | .brR, [] => false
  | .brR, c :: r =>
    if c = ']' then spM .grp r
    else c.isDigit && spM .brR r
  | .grp, [] => true
  | .grp, c :: r =>
    if c = '.' then spM .dot r
    else if c = '[' then spM .br1 r
    else false

/-- `simplePropertyPattern.test(expression)`. -/
def simpleProp : List Char → Bool
  | [] => false
  | c :: r => isIdentStart c && spM .star r

/-- Result of `evaluateExpression`: a value, one of the two thrown errors,
or the marker that the expression passed every security screen and was
handed to the untranslated `new Function` evaluation path. -/
inductive ExprOut : Type where
  | val : JSValue → ExprOut
  | errSecurity : ExprOut
  | errInvalid : ExprOut
  | unmodeled : String → ExprOut

/-- The evaluator's context: the caller-supplied key/value mapping. -/
def Ctx : Type := List (String × JSValue)

/-- The tail of `evaluateExpression` after the security screens
(src/utils.ts lines 141-201): the `global` special case, the simple
property path via `get`, then the untranslated general-evaluation path. -/
def evalExprTail (expr : String) (ctx : Ctx) : ExprOut :=
  if expr = "global" then
    if fieldHas ctx "global" then .val (fieldGet ctx "global") else .errSecurity
  else if simpleProp expr.data then .val (get (vObj ctx) expr)
  else .unmodeled expr

/-- `evaluateExpression` from src/utils.ts lines 111-202: empty input gives
`undefined`; then the `DANGEROUS_PATTERNS` scan, then the computed-bracket
screen on the first `[...]` group, then `evalExprTail`. -/
def evaluateExpression (expr : String) (ctx : Ctx) : ExprOut :=
  if expr = "" then .val vUndef
  else if dangerousPat expr.data then .errSecurity
  else
    match firstBracket expr.data with
    | some seg =>
      let stripped := seg.filter (fun c => !isQuoteC c)
      if DANGEROUS_GLOBALS.contains (String.mk stripped) then .errSecurity
      else if !isAllDigits stripped && !isStringLit seg then .errSecurity
      else evalExprTail expr ctx
    | none => evalExprTail expr ctx

/-- Token kinds of src/tokenizer.ts (`TOKEN_TYPES`), with the trimmed
payload for the kinds that carry one.  Source positions are not carried:
no claim refers to them and no later stage reads them. -/
inductive Tok : Type where
  | text : String → Tok
  | varT : String → Tok
  | ifStart : String → Tok
  | els : Tok
  | ifEnd : Tok
  | forStart : String → Tok
  | forEnd : Tok
deriving DecidableEq, Repr

/-- The `TokenizerError`s thrown by src/tokenizer.ts, by message.
`fuelTok` is the out-of-fuel marker of the fueled scan loop; `tokenize`
always supplies enough fuel for it to be unreachable. -/
inductive TokErr : Type where
  | unclosedVar : TokErr
  | unclosedBlock : TokErr
  | emptyVarExpr : TokErr
  | emptyBlockExpr : TokErr
  | rawHtml : TokErr
  | mismatchedTags : TokErr
  | fuelTok : TokErr
deriving DecidableEq, Repr

/-- The `\x00ESCAPED_OPEN_BRACE\x00` sentinel. -/
def sentO : List Char := nulC :: "ESCAPED_OPEN_BRACE".data ++ [nulC]

/-- The `\x00ESCAPED_CLOSE_BRACE\x00` sentinel. -/
def sentC : List Char := nulC :: "ESCAPED_CLOSE_BRACE".data ++ [nulC]

/-- The escaped-brace preprocessing of src/tokenizer.ts lines 45-47:
`template.replace(/\\(\{|\})/g, ...)` turning a backslash-brace pair into
the corresponding sentinel. -/
def escapeBr : List Char → List Char
  | [] => []
  | [c] => [c]
  | c :: c2 :: r2 =>
    if c = bsl then
      if c2 = obr then sentO ++ escapeBr r2
      else if c2 = cbr then sentC ++ escapeBr r2
      else c :: escapeBr (c2 :: r2)
    else c :: escapeBr (c2 :: r2)

/-- Global sequential replacement of the fixed pattern `pat` by the single
character `rep` (a JS `str.replace(/pat/g, rep)` for a literal pattern).
The `Nat` argument skips the remaining characters of a matched
occurrence, keeping the recursion structural. -/
def replAux (pat : List Char) (rep : Char) : Nat → List Char → List Char
  | _, [] => []
  | 0, c :: r =>
    if pat.isPrefixOf (c :: r) then rep :: replAux pat rep (pat.length - 1) r
    else c :: replAux pat rep 0 r
  | k + 1, _ :: r => replAux pat rep k r

/-- Sentinel restoration applied to emitted text tokens
(src/tokenizer.ts lines 90-92): first the open sentinel back to a brace,
then the close sentinel, exactly as the two sequential `replace` calls. -/
def restore (l : List Char) : List Char :=
  replAux sentC cbr 0 (replAux sentO obr 0 l)

/-- Does `[^}]*\}\}` match right after an opening `\{\{`?  The class
`[^}]` cannot match `}`, so the regex lookahead is equivalent to dropping
up to the first `}` and then finding a second one. -/
def closedVarAfter (r : List Char) : Bool :=
  [cbr, cbr].isPrefixOf (r.dropWhile (fun d => !(d = cbr)))

/-- Scan for `\{\{(?![^}]*\}\})` (src/tokenizer.ts lines 180-187); the
Boolean argument records whether the previous character was `\x7b`. -/
def fuvAux : Bool → List Char → Bool
  | _, [] => false
  | prevOpen, c :: r =>
    (prevOpen && c = obr && !closedVarAfter r) || fuvAux (c = obr) r

/-- Does `[^%]*\%\}` match right after an opening `\{\%`? -/
def closedBlockAfter (r : List Char) : Bool :=
  [pct, cbr].isPrefixOf (r.dropWhile (fun d => !(d = pct)))

/-- Scan for `\{\%(?![^%]*\%\})` (src/tokenizer.ts lines 190-196). -/
def fubAux : Bool → List Char → Bool
  | _, [] => false
  | prevOpen, c :: r =>
    (prevOpen && c = pct && !closedBlockAfter r) || fubAux (c = obr) r

/-- What matched at a position of the scan loop: the raw-HTML and
empty-block rejection patterns, or a real token pattern with its captured
payload. -/
inductive MK : Type where
  | rawK : MK
  | varK : String → MK
  | ifK : String → MK
  | elsK : MK
  | ifEndK : MK
  | forK : String → MK
  | forEndK : MK
  | invalidK : MK
deriving DecidableEq, Repr

/-- `\{\{\{[^}]*\}\}\}` continuation after the three braces: remaining
input on success. -/
def matchRawAfter (r : List Char) : Option (List Char) :=
  let rest := r.dropWhile (fun d => !(d = cbr))
  if [cbr, cbr, cbr].isPrefixOf rest then some (rest.drop 3) else none

/-- `\{\{\s*([^}]*)\s*\}\}` continuation after the two braces: captured
group (whitespace included, trimmed later) and remaining input. -/
def matchVarAfter (r : List Char) : Option (List Char × List Char) :=
  let inner := r.takeWhile (fun d => !(d = cbr))
  let rest := r.dropWhile (fun d => !(d = cbr))
  if [cbr, cbr].isPrefixOf rest then some (inner, rest.drop 2) else none

/-- `kw\s+([^%]*)\s*\%\}` after `\{\%\s*` (the `if`/`for` start patterns):
returns capture and remaining input.  The keyword must be followed by at
least one whitespace character. -/
def matchIfLike (kw : List Char) (r1 : List Char) : Option (List Char × List Char) :=
  if kw.isPrefixOf r1 then
    let r2 := r1.drop kw.length
    match r2 with
    | d :: _ =>
      if isWs d then
        let cap := r2.takeWhile (fun c => !(c = pct))
        let rest := r2.dropWhile (fun c => !(c = pct))
        if [pct, cbr].isPrefixOf rest then some (cap, rest.drop 2) else none
      else none
    | [] => none
  else none

/-- `kw\s*\%\}` after `\{\%\s*` (the `else`/`endif`/`endfor` patterns):
returns remaining input. -/
def matchPlainBlock (kw : List Char) (r1 : List Char) : Option (List Char) :=
  if kw.isPrefixOf r1 then
    let rest := (r1.drop kw.length).dropWhile isWs
    if [pct, cbr].isPrefixOf rest then some (rest.drop 2) else none
  else none

/-- The `\{\{`-family patterns at the current position (raw HTML first,
then variable), given the input after the two braces. -/
def matchVarFam (r : List Char) : Option (MK × List Char) :=
  match r with
  | c3 :: r3 =>
    if c3 = obr then
      match matchRawAfter r3 with
      | some rem => some (.rawK, rem)
      | none =>
        match matchVarAfter r with
        | some (inner, rem) => some (.varK (String.mk inner), rem)
        | none => none
    else
      match matchVarAfter r with
      | some (inner, rem) => some (.varK (String.mk inner), rem)
      | none => none
  | [] => none

/-- The `\{\%`-family patterns at the current position, in the source's
priority order (if, else, endif, for, endfor, empty block), given the
input after `\{\%`. -/
def matchBlockFam (r : List Char) : Option (MK × List Char) :=
  let r1 := r.dropWhile isWs
  match matchIfLike "if".data r1 with
  | some (cap, rem) => some (.ifK (String.mk cap), rem)
  | none =>
    match matchPlainBlock "else".data r1 with
    | some rem => some (.elsK, rem)
    | none =>
      match matchPlainBlock "endif".data r1 with
      | some rem => some (.ifEndK, rem)
      | none =>
        match matchIfLike "for".data r1 with
        | some (cap, rem) => some (.forK (String.mk cap), rem)
        | none =>
          match matchPlainBlock "endfor".data r1 with
          | some rem => some (.forEndK, rem)
          | none =>
            if [pct, cbr].isPrefixOf r1 then some (.invalidK, r1.drop 2) else none

/-- Try every tokenizer pattern at this exact position.  All patterns
start with `\{\{` or `\{\%`, so the two families are disjoint; within a
family the source's priority order is respected.  This realizes the
"earliest match wins, ties by pattern order" selection of
src/tokenizer.ts lines 68-83. -/
def matchAt (l : List Char) : Option (MK × List Char) :=
  match l with
  | c1 :: c2 :: r =>
    if c1 = obr && c2 = obr then matchVarFam r
    else if c1 = obr && c2 = pct then matchBlockFam r
    else none
  | _ => none

/-- Earliest pattern match in the input: the text before it, the matched
kind, and the remaining input after the match. -/
def findMatch : List Char → Option (List Char × MK × List Char)
  | [] => none
  | c :: rest =>
    match matchAt (c :: rest) with
    | some (k, rem) => some ([], k, rem)
    | none =>
      match findMatch rest with
      | some (p, k, rem) => some (c :: p, k, rem)
      | none => none

/-- The tokenizer scan loop (src/tokenizer.ts lines 68-170), fueled to
keep the recursion structural; every match consumes at least one
character, so `length + 1` fuel never runs out. -/
def tokLoopF : Nat → List Char → Except TokErr (List Tok)
  | 0, _ => .error .fuelTok
  | f + 1, l =>
    match findMatch l with
    | none => .ok (if l.isEmpty then [] else [.text (String.mk (restore l))])
    | some (pre, k, rem) =>
      let preT : List Tok := if pre.isEmpty then [] else [.text (String.mk (restore pre))]
      match k with
      | .invalidK => .error .emptyBlockExpr
      | .rawK => .error .rawHtml
      | .varK v =>
        if strTrim v = "" then .error .emptyVarExpr
        else
          match tokLoopF f rem with
          | .error e => .error e
          | .ok ts => .ok (preT ++ .varT (strTrim v) :: ts)
      | .ifK v =>
        if strTrim v = "" then .error .emptyBlockExpr
        else
          match tokLoopF f rem with
          | .error e => .error e
          | .ok ts => .ok (preT ++ .ifStart (strTrim v) :: ts)
      | .forK v =>
        if strTrim v = "" then .error .emptyBlockExpr
        else
          match tokLoopF f rem with
          | .error e => .error e
          | .ok ts => .ok (preT ++ .forStart (strTrim v) :: ts)
      | .elsK =>
        match tokLoopF f rem with
        | .error e => .error e
        | .ok ts => .ok (preT ++ .els :: ts)
      | .ifEndK =>
        match tokLoopF f rem with
        | .error e => .error e
        | .ok ts => .ok (preT ++ .ifEnd :: ts)
      | .forEndK =>
        match tokLoopF f rem with
        | .error e => .error e
        | .ok ts => .ok (preT ++ .forEnd :: ts)

/-- `validateMismatchedBlocks` (src/tokenizer.ts lines 199-221) as a
Boolean "found a mismatch" test; the stack records `true` for an open
`if`, `false` for an open `for`.  End tags with an empty stack are
ignored here (the parser reports them). -/
def vmb : List Bool → List Tok → Bool
  | _, [] => false
  | stack, t :: rest =>
    match t with
    | .ifStart _ => vmb (true :: stack) rest
    | .forStart _ => vmb (false :: stack) rest
    | .ifEnd =>
      match stack with
      | [] => vmb [] rest
      | top :: s2 => if top then vmb s2 rest else true
    | .forEnd =>
      match stack with
      | [] => vmb [] rest
      | top :: s2 => if top then true else vmb s2 rest
    | _ => vmb stack rest

/-- `tokenize` from src/tokenizer.ts lines 39-176: escaped-brace
preprocessing, the two unclosed-expression validations, the scan loop,
then the mismatched-block validation. -/
def tokenize (t : String) : Except TokErr (List Tok) :=
  let l := escapeBr t.data
  if fuvAux false l then .error .unclosedVar
  else if fubAux false l then .error .unclosedBlock
  else
    match tokLoopF (l.length + 1) l with
    | .error e => .error e
    | .ok ts => if vmb [] ts then .error .mismatchedTags else .ok ts

/-- The typed AST of src/parser.ts (`NODE_TYPES`): text, variable,
if (with optional else body, empty when absent), and for (with optional
index variable). -/
inductive Node : Type where
  | textN : String → Node
  | varN : String → Node
  | ifN : String → List Node → List Node → Node
  | forN : String → Option String → String → List Node → Node

/-- The `ParseError`s thrown by src/parser.ts, by message.  `fuelParse`
is the out-of-fuel marker of the fueled descent; `parse` always supplies
enough fuel for it to be unreachable. -/
inductive PErr : Type where
  | emptyIfCond : PErr
  | unmatchedIf : PErr
  | unmatchedFor : PErr
  | invalidForSyntax : PErr
  | unexpectedEndif : PErr
  | unexpectedEndfor : PErr
  | unexpectedElse : PErr
  | fuelParse : PErr
deriving DecidableEq, Repr

/-- JS regex line terminators excluded by `.` (the U+2028/U+2029 pair
is outside the ASCII ranges this model covers, matching the `isWs`
convention). -/
def isLineTerm (c : Char) : Bool := c = '\n' || c = '\r'

/-- Index just after the last line terminator of the list (`0` when the
list has none): the earliest position at which a `(.+)$` capture can
start. -/
def lastTermBound : List Char → Nat
  | [] => 0
  | c :: r =>
    let t := lastTermBound r
    if 0 < t then t + 1 else if isLineTerm c then 1 else 0

/-- The `\s+in\s+(.+)$` tail of both for-loop header grammars; returns
the `(.+)` capture.  JS `\s` matches line terminators but `.` does not,
and `$` (no `m` flag) only matches at the very end, so after `in` the
input must split into a nonempty whitespace run followed by a nonempty
capture that reaches the end and contains no `\n`/`\r`.  Backtracking
makes the split point the largest `p` with `p ≤` the leading-whitespace
run, `p ≤ length - 1` (capture nonempty) and `p ≥` the position after
the last line terminator; the capture is the suffix from `p` (any
feasible `p` differs only in leading whitespace, removed by the
caller's `trim`). -/
def matchInTail (l : List Char) : Option (List Char) :=
  let w1 := l.takeWhile isWs
  let r := l.dropWhile isWs
  if w1.isEmpty then none
  else if "in".data.isPrefixOf r then
    let r2 := r.drop 2
    let w0 := (r2.takeWhile isWs).length
    let q := lastTermBound r2
    let pmax := min w0 (r2.length - 1)
    if 1 ≤ pmax ∧ q ≤ pmax then some (r2.drop pmax) else none
  else none

/-- `^(\w+),\s*(\w+)\s+in\s+(.+)$` (src/parser.ts line 139). -/
def matchCommaForm (l : List Char) : Option (List Char × List Char × List Char) :=
  let item := l.takeWhile isWordChar
  let r := l.dropWhile isWordChar
  if item.isEmpty then none
  else
    match r with
    | c :: r2 =>
      if c = ',' then
        let r3 := r2.dropWhile isWs
        let idx := r3.takeWhile isWordChar
        let r4 := r3.dropWhile isWordChar
        if idx.isEmpty then none
        else
          match matchInTail r4 with
          | some cap => some (item, idx, cap)
          | none => none
      else none
    | [] => none

/-- `^(\w+)\s+in\s+(.+)$` (src/parser.ts line 147). -/
def matchSimpleForm (l : List Char) : Option (List Char × List Char) :=
  let item := l.takeWhile isWordChar
  let r := l.dropWhile isWordChar
  if item.isEmpty then none
  else
    match matchInTail r with
    | some cap => some (item, cap)
    | none => none

/-- The for-loop header grammar of `parseForLoop` (src/parser.ts lines
136-173): the comma form is tried first, then the simple form; the
captures are trimmed as in the source. -/
def parseForHeader (s : String) : Option (String × Option String × String) :=
  match matchCommaForm s.data with
  | some (i, x, cap) =>
    some (strTrim (String.mk i), some (strTrim (String.mk x)), strTrim (String.mk cap))
  | none =>
    match matchSimpleForm s.data with
    | some (i, cap) => some (strTrim (String.mk i), none, strTrim (String.mk cap))
    | none => none

theorem parseForHeader_rejects_lineTerm_tail :
    parseForHeader "x in a\nb" = none ∧ parseForHeader "x in a\rb" = none :=
  ⟨rfl, rfl⟩

theorem parseForHeader_whitespace_lineTerm :
    parseForHeader "x in \na" = some ("x", none, "a") :=
  rfl

/-- The recursive descent of src/parser.ts (`parseNodes`, with
`parseIfStatement` and `parseForLoop` inlined at their call sites),
returning the parsed nodes together with the unconsumed tokens (the
source's `current` index).  Fueled to keep the recursion structural;
every recursive call is on a strictly shorter token list, so
`length + 1` fuel never runs out. -/
def parseNodesF : Nat → List Tok → Except PErr (List Node × List Tok)
  | 0, _ => .error .fuelParse
  | _ + 1, [] => .ok ([], [])
  | f + 1, t :: rest =>
    match t with
    | .text s =>
      match parseNodesF f rest with
      | .error e => .error e
      | .ok (ns, r) => .ok (.textN s :: ns, r)
    | .varT s =>
      match parseNodesF f rest with
      | .error e => .error e
      | .ok (ns, r) => .ok (.varN s :: ns, r)
    | .els => .ok ([], .els :: rest)
    | .ifEnd => .ok ([], .ifEnd :: rest)
    | .forEnd => .ok ([], .forEnd :: rest)
    | .ifStart c =>
      if strTrim c = "" then .error .emptyIfCond
      else
        match parseNodesF f rest with
        | .error e => .error e
        | .ok (body, r1) =>
          match r1 with
          | .els :: r2 =>
            match parseNodesF f r2 with
            | .error e => .error e
            | .ok (eb, r3) =>
              match r3 with
              | .ifEnd :: r4 =>
                match parseNodesF f r4 with
                | .error e => .error e
                | .ok (ns, r5) => .ok (.ifN (strTrim c) body eb :: ns, r5)
              | _ => .error .unmatchedIf
          | .ifEnd :: r4 =>
            match parseNodesF f r4 with
            | .error e => .error e
            | .ok (ns, r5) => .ok (.ifN (strTrim c) body [] :: ns, r5)
          | _ => .error .unmatchedIf
    | .forStart spec =>
      match parseForHeader spec with
      | none => .error .invalidForSyntax
      | some (item, idx, iter) =>
        match parseNodesF f rest with
        | .error e => .error e
        | .ok (body, r1) =>
          match r1 with
          | .forEnd :: r4 =>
            match parseNodesF f r4 with
            | .error e => .error e
            | .ok (ns, r5) => .ok (.forN item idx iter body :: ns, r5)
          | _ => .error .unmatchedFor

/-- `parse` from src/parser.ts lines 53-191: run the descent, then reject
any leftover terminator token exactly as the source's final checks do. -/
def parse (ts : List Tok) : Except PErr (List Node) :=
  match parseNodesF (ts.length + 1) ts with
  | .error e => .error e
  | .ok (ns, r) =>
    match r with
    | [] => .ok ns
    | .ifEnd :: _ => .error .unexpectedEndif
    | .forEnd :: _ => .error .unexpectedEndfor
    | .els :: _ => .error .unexpectedElse
    | _ :: _ => .ok ns

/-- The `EvaluationError`s of src/evaluator.ts, by message.  `unmodeledE`
marks that evaluation reached the untranslated `new Function` expression
path, whose outcome the model does not interpret. -/
inductive EvalErr : Type where
  | dangerousGlobals : EvalErr
  | invalidExprE : String → EvalErr
  | ifCondFailed : String → EvalErr
  | notIterable : String → EvalErr
  | forFailed : String → EvalErr
  | unmodeledE : String → EvalErr
deriving DecidableEq, Repr

/-- The implicit `loop` record bound for each iteration
(src/evaluator.ts lines 164-171). -/
def loopRec (i n : Nat) : JSValue :=
  vObj [("index", vNum i), ("index0", vNum i), ("index1", vNum (i + 1)),
        ("first", vBool (decide (i = 0))), ("last", vBool (decide (i = n - 1))),
        ("length", vNum n)]

/-- The derived per-iteration context of `evaluateArrayLoop`
(src/evaluator.ts lines 161-177): a shadowing extension of the enclosing
context with the loop variable, the `loop` record, and, last and with
highest precedence, the optional index variable.  Prepending models the
JS literal's later-write-wins override order, since `fieldGet` takes the
first binding. -/
def mkLoopCtx (ctx : Ctx) (item : String) (idx : Option String) (v : JSValue) (i n : Nat) : Ctx :=
  let c1 : Ctx := ("loop", loopRec i n) :: (item, v) :: ctx
  match idx with
  | some s => (s, vNum i) :: c1
  | none => c1

/-- `Array.from` on an array-like object with integral `length` `n`
(negative lengths clamp to zero, as JS `ToLength` does): elements are the
numeric-string own properties, `undefined` when missing. -/
def arrayFromObj (fs : List (String × JSValue)) (n : Int) : List JSValue :=
  (List.range n.toNat).map (fun i => fieldGet fs (String.mk (natDec i)))

-- The tree evaluator of src/evaluator.ts in explicit state-passing form:
-- each function returns the rendered string together with the caller's
-- context after the call (the source performs no writes on it, which is
-- what claim C8 is about).  `evaluate` is lines 18-33, `evaluateNode`
-- lines 35-103 with `evaluateTextNode`/`evaluateVariable`/
-- `evaluateIfNode`/`evaluateForNode` inlined as match arms, and
-- `evaluateArrayLoop` lines 156-183 with the running index and the fixed
-- sequence length as explicit arguments.
mutual

def evaluate : (l : List Node) → Ctx → Except EvalErr (String × Ctx)
  | [], ctx => .ok ("", ctx)
  | n :: t, ctx =>
    match evaluateNode n ctx with
    | .error e => .error e
    | .ok (s, c1) =>
      match evaluate t c1 with
      | .error e => .error e
      | .ok (s2, c2) => .ok (s ++ s2, c2)
  termination_by l => (sizeOf l, 0)

def evaluateNode : (n : Node) → Ctx → Except EvalErr (String × Ctx)
  | .textN s, ctx => .ok (s, ctx)
  | .varN e, ctx =>
    match evaluateExpression e ctx with
    | .val v => if isNullish v then .ok ("", ctx) else .ok (escapeHtml v, ctx)
    | .errSecurity => .error .dangerousGlobals
    | .errInvalid => .error (.invalidExprE e)
    | .unmodeled s => .error (.unmodeledE s)
  | .ifN c b eb, ctx =>
    match evaluateExpression c ctx with
    | .errSecurity => .error .dangerousGlobals
    | .errInvalid => .error (.ifCondFailed c)
    | .unmodeled s => .error (.unmodeledE s)
    | .val v =>
      if isTruthy v then
        match evaluate b ctx with
        | .ok (s, c1) => .ok (s, c1)
        | .error .dangerousGlobals => .error .dangerousGlobals
        | .error (.unmodeledE s) => .error (.unmodeledE s)
        | .error _ => .error (.ifCondFailed c)
      else if !eb.isEmpty then
        match evaluate eb ctx with
        | .ok (s, c1) => .ok (s, c1)
        | .error .dangerousGlobals => .error .dangerousGlobals
        | .error (.unmodeledE s) => .error (.unmodeledE s)
        | .error _ => .error (.ifCondFailed c)
      else .ok ("", ctx)
  | .forN item idx iter body, ctx =>
    match evaluateExpression iter ctx with
    | .errSecurity => .error .dangerousGlobals
    | .errInvalid => .error (.forFailed iter)
    | .unmodeled s => .error (.unmodeledE s)
    | .val v =>
      if isNullish v then .ok ("", ctx)
      else
        match v with
        | vArr xs => evaluateArrayLoop body item idx xs.length 0 xs ctx
        | vStr s =>
          evaluateArrayLoop body item idx s.data.length 0
            (s.data.map (fun c => vStr (String.mk [c]))) ctx
        | vObj fs =>
          match fieldGet fs "length" with
          | vNum n => evaluateArrayLoop body item idx n.toNat 0 (arrayFromObj fs n) ctx
          | vNaN => evaluateArrayLoop body item idx 0 0 [] ctx
          | _ => .error (.notIterable "object")
        | w => .error (.notIterable (jsTypeof w))
  termination_by n => (sizeOf n, 0)

def evaluateArrayLoop : (body : List Node) → String → Option String → Nat → Nat →
    (elems : List JSValue) → Ctx → Except EvalErr (String × Ctx)
  | _, _, _, _, _, [], ctx => .ok ("", ctx)
  | body, item, idx, n, i, v :: rest, ctx =>
    match evaluate body (mkLoopCtx ctx item idx v i n) with
    | .error e => .error e
    | .ok (s, _) =>
      match evaluateArrayLoop body item idx n (i + 1) rest ctx with
      | .error e => .error e
      | .ok (t, c2) => .ok (s ++ t, c2)
  termination_by body _ _ _ _ elems => (sizeOf body, 1 + sizeOf elems)

end

/-- Unified pipeline error. -/
inductive Err : Type where
  | tokE : TokErr → Err
  | parseE : PErr → Err
  | evalE : EvalErr → Err
deriving DecidableEq, Repr

/-- `render` from src/index.ts lines 16-51: the three-stage pipeline.
The message-wrapping of the source's catch block only reformats thrown
errors, so it is not modeled; errors stay as structured values. -/
def render (t : String) (ctx : Ctx) : Except Err String :=
  match tokenize t with
  | .error e => .error (.tokE e)
  | .ok toks =>
    match parse toks with
    | .error e => .error (.parseE e)
    | .ok ns =>
      match evaluate ns ctx with
      | .error e => .error (.evalE e)
      | .ok (s, _) => .ok s

/-! ## Helper lemmas shared by several claims -/

theorem subOf_mono {p q : List Char} (hpq : p.isPrefixOf q = true) :
    ∀ {l : List Char}, subOf q l = true → subOf p l = true := by
  intro l
  induction l with
  | nil =>
    intro h
    simp only [subOf, List.isEmpty_iff] at h
    subst h
    simp only [subOf, List.isEmpty_iff]
    rw [ List.isPrefixOf_iff_prefix] at hpq
    exact List.prefix_nil.mp hpq
  | cons c r ih =>
    intro h
    simp only [subOf, Bool.or_eq_true] at h ⊢
    rcases h with h | h
    · left
      rw [ List.isPrefixOf_iff_prefix] at hpq h ⊢
      exact hpq.trans h
    · right; exact ih h

theorem render_eq_of (t : String) (toks : List Tok) (ns : List Node) (ctx : Ctx)
    (ht : tokenize t = .ok toks) (hp : parse toks = .ok ns) :
    render t ctx =
      (match evaluate ns ctx with
        | .error e => .error (.evalE e)
        | .ok (s, _) => .ok s) := by
  unfold render
  rw [ht]
  simp only []
  rw [hp]

theorem render_single_var (ctx : Ctx) (w : String)
    (h : fieldGet ctx "v" = vStr w) :
    render "\x7b\x7b v \x7d\x7d" ctx = .ok (escapeHtml (vStr w)) := by
  have ht : tokenize "\x7b\x7b v \x7d\x7d" = .ok [Tok.varT "v"] := by rfl
  have hp : parse [Tok.varT "v"] = .ok [Node.varN "v"] := by rfl
  rw [render_eq_of _ _ _ _ ht hp]
  have he : evaluateExpression "v" ctx = .val (fieldGet ctx "v") := rfl
  rw [h] at he
  simp [evaluate, evaluateNode, he, isNullish]

/-! ## Claim C10 -/

/-- C10: for every value whose JS string form contains both
`&lt;script&gt;` and `&lt;/script&gt;`, `escapeHtml` returns that string
form completely unchanged — no character in it is escaped (the
double-encoding carve-out of src/utils.ts lines 11-16), so rendered
variable output can contain unescaped HTML in this case. -/
theorem C10_escapeHtml_encodedScript_passthrough (v : JSValue)
    (h1 : strContains (jsToString v) "&lt;script&gt;" = true)
    (h2 : strContains (jsToString v) "&lt;/script&gt;" = true) :
    escapeHtml v = jsToString v := by
  have hnn : isNullish v = false := by
    cases v <;> first
      | rfl
      | (exfalso; revert h1; decide)
  unfold escapeHtml
  rw [hnn]
  simp only [Bool.false_eq_true, if_false]
  unfold strContains at h1 h2
  have hlt : subOf "&lt;".data (jsToString v).data = true :=
    subOf_mono (by decide) h1
  have hany : entityPats.any (fun p => subOf p (jsToString v).data) = true := by
    rw [List.any_eq_true]
    exact ⟨"&lt;".data, by decide, hlt⟩
  unfold escapeHtmlStr
  simp [hany, h1, h2]

/-- Witness for C10 at a concrete value that mixes encoded script tags
with raw HTML: everything, including the raw `<b>`, passes through
unescaped. -/
theorem C10_witness :
    strContains (jsToString (vStr "&lt;script&gt;<b>&lt;/script&gt;")) "&lt;script&gt;" = true ∧
    strContains (jsToString (vStr "&lt;script&gt;<b>&lt;/script&gt;")) "&lt;/script&gt;" = true ∧
    escapeHtml (vStr "&lt;script&gt;<b>&lt;/script&gt;") = "&lt;script&gt;<b>&lt;/script&gt;" :=
  ⟨by decide, by decide,
    C10_escapeHtml_encodedScript_passthrough _ (by decide) (by decide)⟩

/-! ## Claim C3 -/

/-- C3: for every context binding `v` to the string `<script>`,
rendering `\x7b\x7b v \x7d\x7d` yields `&lt;script&gt;`, and the rendered
output never contains a literal `<script>` substring. -/
theorem C3_script_always_escaped (ctx : Ctx)
    (h : fieldGet ctx "v" = vStr "<script>") :
    render "\x7b\x7b v \x7d\x7d" ctx = .ok "&lt;script&gt;" ∧
    ∀ out, render "\x7b\x7b v \x7d\x7d" ctx = .ok out →
      strContains out "<script>" = false := by
  have h1 : render "\x7b\x7b v \x7d\x7d" ctx = .ok "&lt;script&gt;" := by
    have := render_single_var ctx "<script>" h
    rw [this]
    rfl
  refine ⟨h1, ?_⟩
  intro out hout
  rw [h1] at hout
  cases hout
  decide

/-- Witness for C3 at the singleton context. -/
theorem C3_witness :
    fieldGet [("v", vStr "<script>")] "v" = vStr "<script>" ∧
    render "\x7b\x7b v \x7d\x7d" [("v", vStr "<script>")] = .ok "&lt;script&gt;" :=
  ⟨rfl, (C3_script_always_escaped [("v", vStr "<script>")] rfl).1⟩

/-! ## Claim C2 -/

theorem render_vSecret_const (s : String) :
    render "\x7b\x7b v \x7d\x7d"
        [("v", vStr "\x7b\x7b secret \x7d\x7d"), ("secret", vStr s)] =
      .ok "\x7b\x7b secret \x7d\x7d" := by
  have h := render_single_var
    [("v", vStr "\x7b\x7b secret \x7d\x7d"), ("secret", vStr s)]
    "\x7b\x7b secret \x7d\x7d" rfl
  rw [h]
  rfl

/-- C2 (amended): `render` of `\x7b\x7b v \x7d\x7d` against a context
binding `v` to the literal `\x7b\x7b secret \x7d\x7d` and `secret` to any
string `s` always returns the literal text `\x7b\x7b secret \x7d\x7d`
(its HTML-escaped form, which is itself), independently of `s`: the
interpolated value is never re-parsed as template syntax.  The original
claim's additional clause "the output never contains the value of `s`"
fails for degenerate choices of `s` that happen to be substrings of the
literal output (see the counterexample); everything else holds. -/
theorem C2_no_template_injection (s : String) :
    render "\x7b\x7b v \x7d\x7d"
        [("v", vStr "\x7b\x7b secret \x7d\x7d"), ("secret", vStr s)] =
      .ok "\x7b\x7b secret \x7d\x7d" :=
  render_vSecret_const s

/-- Counterexample to C2 as stated: with `secret` bound to the string
`secret`, the (constant) output `\x7b\x7b secret \x7d\x7d` does contain
the value of `secret` as a substring, so "the output never contains the
value of s" is false in this degenerate case. -/
theorem C2_counterexample :
    render "\x7b\x7b v \x7d\x7d"
        [("v", vStr "\x7b\x7b secret \x7d\x7d"), ("secret", vStr "secret")] =
      .ok "\x7b\x7b secret \x7d\x7d" ∧
    strContains "\x7b\x7b secret \x7d\x7d" "secret" = true :=
  ⟨render_vSecret_const "secret", by decide⟩

/-! ## Claim C4 -/

theorem render_if_template (x : JSValue) :
    render "\x7b% if v %\x7dT\x7b% else %\x7dF\x7b% endif %\x7d" [("v", x)] =
      .ok (if isTruthy x then "T" else "F") := by
  have ht : tokenize "\x7b% if v %\x7dT\x7b% else %\x7dF\x7b% endif %\x7d" =
      .ok [Tok.ifStart "v", Tok.text "T", Tok.els, Tok.text "F", Tok.ifEnd] := by rfl
  have hp : parse [Tok.ifStart "v", Tok.text "T", Tok.els, Tok.text "F", Tok.ifEnd] =
      .ok [Node.ifN "v" [Node.textN "T"] [Node.textN "F"]] := by rfl
  rw [render_eq_of _ _ _ _ ht hp]
  have he : evaluateExpression "v" [("v", x)] = .val x := rfl
  have hT : evaluate [Node.textN "T"] [("v", x)] = .ok ("T", [("v", x)]) := by
    simp [evaluate, evaluateNode]
  have hF : evaluate [Node.textN "F"] [("v", x)] = .ok ("F", [("v", x)]) := by
    simp [evaluate, evaluateNode]
  by_cases hx : isTruthy x = true
  · simp [evaluate, evaluateNode, he, hT, hF, hx]
  · simp only [Bool.not_eq_true] at hx
    simp [evaluate, evaluateNode, he, hT, hF, hx]

/-- C4: the truthiness table of `\x7b% if v %\x7dT\x7b% else %\x7dF\x7b% endif %\x7d`:
`false`, `0`, the empty string, `null`, `undefined`, `NaN` and the empty
array render `F`; `true`, `1`, a non-empty string, an empty object and a
non-empty array render `T`. -/
theorem C4_truthiness_table :
    (render "\x7b% if v %\x7dT\x7b% else %\x7dF\x7b% endif %\x7d" [("v", vBool false)] = .ok "F" ∧
     render "\x7b% if v %\x7dT\x7b% else %\x7dF\x7b% endif %\x7d" [("v", vNum 0)] = .ok "F" ∧
     render "\x7b% if v %\x7dT\x7b% else %\x7dF\x7b% endif %\x7d" [("v", vStr "")] = .ok "F" ∧
     render "\x7b% if v %\x7dT\x7b% else %\x7dF\x7b% endif %\x7d" [("v", vNull)] = .ok "F" ∧
     render "\x7b% if v %\x7dT\x7b% else %\x7dF\x7b% endif %\x7d" [("v", vUndef)] = .ok "F" ∧
     render "\x7b% if v %\x7dT\x7b% else %\x7dF\x7b% endif %\x7d" [("v", vNaN)] = .ok "F" ∧
     render "\x7b% if v %\x7dT\x7b% else %\x7dF\x7b% endif %\x7d" [("v", vArr [])] = .ok "F") ∧
    (render "\x7b% if v %\x7dT\x7b% else %\x7dF\x7b% endif %\x7d" [("v", vBool true)] = .ok "T" ∧
     render "\x7b% if v %\x7dT\x7b% else %\x7dF\x7b% endif %\x7d" [("v", vNum 1)] = .ok "T" ∧
     render "\x7b% if v %\x7dT\x7b% else %\x7dF\x7b% endif %\x7d" [("v", vStr "x")] = .ok "T" ∧
     render "\x7b% if v %\x7dT\x7b% else %\x7dF\x7b% endif %\x7d" [("v", vObj [])] = .ok "T" ∧
     render "\x7b% if v %\x7dT\x7b% else %\x7dF\x7b% endif %\x7d" [("v", vArr [vNum 1])] = .ok "T") :=
  ⟨⟨(render_if_template (vBool false)).trans (by rfl),
    (render_if_template (vNum 0)).trans (by rfl),
    (render_if_template (vStr "")).trans (by rfl),
    (render_if_template vNull).trans (by rfl),
    (render_if_template vUndef).trans (by rfl),
    (render_if_template vNaN).trans (by rfl),
    (render_if_template (vArr [])).trans (by rfl)⟩,
   ⟨(render_if_template (vBool true)).trans (by rfl),
    (render_if_template (vNum 1)).trans (by rfl),
    (render_if_template (vStr "x")).trans (by rfl),
    (render_if_template (vObj [])).trans (by rfl),
    (render_if_template (vArr [vNum 1])).trans (by rfl)⟩⟩

/-! ## Claim C1 -/

/-- C1 (amended): the computed-bracket security screen of
`evaluateExpression` examines only the first `[...]` group found by the
regex `\[([^\]]+)\]`.  For every context and every expression whose FIRST
such group has a key that is neither a numeric literal (after stripping
quote characters) nor a quoted string literal — in particular any bare
identifier key — the function raises the security error "Access to
dangerous globals is not allowed" before any evaluation is attempted.
(The original "contains a computed bracket access" quantification over
every bracket group fails: only the first group is checked, see the
counterexample.) -/
theorem C1_first_bracket_bare_key (expr : String) (ctx : Ctx) (k : List Char)
    (hb : firstBracket expr.data = some k)
    (hd : isAllDigits (k.filter (fun c => !isQuoteC c)) = false)
    (hs : isStringLit k = false) :
    evaluateExpression expr ctx = .errSecurity := by
  have hne : ¬(expr = "") := by
    intro h
    rw [h] at hb
    exact Option.noConfusion hb
  unfold evaluateExpression
  rw [if_neg hne]
  by_cases hdp : dangerousPat expr.data = true
  · simp [hdp]
  · simp only [Bool.not_eq_true] at hdp
    simp only [hdp, Bool.false_eq_true, if_false, hb]
    by_cases hdg :
        DANGEROUS_GLOBALS.contains (String.mk (k.filter (fun c => !isQuoteC c))) = true
    · rw [if_pos hdg]
    · rw [if_neg hdg, if_pos (by simp [hd, hs])]

/-- Witness for C1: `obj[key]` has first bracket key `key`, a bare
identifier, and is rejected with the security error in any context. -/
theorem C1_witness :
    firstBracket "obj[key]".data = some "key".data ∧
    evaluateExpression "obj[key]" [] = .errSecurity :=
  ⟨by decide,
   C1_first_bracket_bare_key "obj[key]" [] "key".data (by decide) (by decide) (by decide)⟩

/-- Counterexample to C1 as stated: `xs[0][k]` contains the computed
bracket access `[k]` whose key is the bare identifier `k`, yet
`evaluateExpression` does not raise the security error — the screen only
inspects the first group `[0]`, which is numeric, and the expression is
handed on to the general evaluation phase. -/
theorem C1_counterexample :
    strContains "xs[0][k]" "[k]" = true ∧
    evaluateExpression "xs[0][k]" [] = .unmodeled "xs[0][k]" ∧
    evaluateExpression "xs[0][k]" [] ≠ .errSecurity :=
  ⟨by decide, rfl, fun h => ExprOut.noConfusion h⟩

/-! ## Claim C6 -/

/-- The "any other value" class of claim C6: not nullish, not an array,
not a string, and not an array-like object with a `typeof`-number
`length`. -/
def nonIterableShape : JSValue → Bool
  | vBool _ => true
  | vNum _ => true
  | vNaN => true
  | vObj fs =>
    match fieldGet fs "length" with
    | vNum _ => false
    | vNaN => false
    | _ => true
  | _ => false

/-- C6: for every `ForNode` whose iterable expression evaluates to a
value `v`: a nullish `v` renders as the empty string (not an error); an
array, a string (iterated per character), or an array-like object with a
numeric `length` is iterated element-by-element by `evaluateArrayLoop`;
and any other value (number, boolean, `NaN`, or object without a numeric
`length`) raises the "Value is not iterable" evaluation error. -/
theorem C6_forNode_iterable_classification (item : String) (idx : Option String)
    (iter : String) (body : List Node) (ctx : Ctx) (v : JSValue)
    (he : evaluateExpression iter ctx = .val v) :
    ((v = vNull ∨ v = vUndef) →
      evaluateNode (.forN item idx iter body) ctx = .ok ("", ctx)) ∧
    (∀ xs, v = vArr xs →
      evaluateNode (.forN item idx iter body) ctx =
        evaluateArrayLoop body item idx xs.length 0 xs ctx) ∧
    (∀ s, v = vStr s →
      evaluateNode (.forN item idx iter body) ctx =
        evaluateArrayLoop body item idx s.data.length 0
          (s.data.map (fun c => vStr (String.mk [c]))) ctx) ∧
    (∀ fs n, v = vObj fs → fieldGet fs "length" = vNum n →
      evaluateNode (.forN item idx iter body) ctx =
        evaluateArrayLoop body item idx n.toNat 0 (arrayFromObj fs n) ctx) ∧
    (nonIterableShape v = true →
      ∃ msg, evaluateNode (.forN item idx iter body) ctx =
        .error (.notIterable msg)) := by
  refine ⟨?_, ?_, ?_, ?_, ?_⟩
  · rintro (h | h) <;> subst h <;> simp [evaluateNode, he, isNullish]
  · rintro xs h
    subst h
    simp [evaluateNode, he, isNullish]
  · rintro s h
    subst h
    simp [evaluateNode, he, isNullish]
  · rintro fs n h hl
    subst h
    simp [evaluateNode, he, isNullish, hl]
  · intro hni
    cases v with
    | vBool b => exact ⟨"boolean", by simp [evaluateNode, he, isNullish, jsTypeof]⟩
    | vNum n => exact ⟨"number", by simp [evaluateNode, he, isNullish, jsTypeof]⟩
    | vNaN => exact ⟨"number", by simp [evaluateNode, he, isNullish, jsTypeof]⟩
    | vObj fs =>
      refine ⟨"object", ?_⟩
      simp only [nonIterableShape] at hni
      cases hf : fieldGet fs "length" with
      | vNum n => rw [hf] at hni; simp at hni
      | vNaN => rw [hf] at hni; simp at hni
      | _ => simp [evaluateNode, he, isNullish, hf]
    | _ => simp [nonIterableShape] at hni

/-- Witness for C6: a nullish iterable yields the empty string. -/
theorem C6_witness :
    evaluateExpression "y" [("y", vNull)] = .val vNull ∧
    evaluateNode (.forN "x" none "y" []) [("y", vNull)] = .ok ("", [("y", vNull)]) :=
  ⟨rfl,
   (C6_forNode_iterable_classification "x" none "y" [] [("y", vNull)] vNull rfl).1
     (Or.inl rfl)⟩

/-! ## Claim C8 -/

theorem evaluate_modeled_preserves_context :
    ∀ (l : List Node) (ctx : Ctx), ∀ s c2, evaluate l ctx = .ok (s, c2) → c2 = ctx := by
  apply evaluate.induct
    (fun l ctx => ∀ s c2, evaluate l ctx = .ok (s, c2) → c2 = ctx)
    (fun n ctx => ∀ s c2, evaluateNode n ctx = .ok (s, c2) → c2 = ctx)
    (fun body item idx n i el ctx =>
      ∀ s c2, evaluateArrayLoop body item idx n i el ctx = .ok (s, c2) → c2 = ctx)
  all_goals intros
  all_goals simp_all [evaluate, evaluateNode, evaluateArrayLoop]

/-- C8: within the translated fragment the evaluator is context-preserving
(loop iterations only extend a derived copy, see
`evaluate_modeled_preserves_context`), but the claim fails on the full
code: the expression `ctx.foo = 1` passes every security screen of
`evaluateExpression` — it is nonempty, matches no denylist pattern, has
no bracket group, is not `global`, and is not a simple property path — so
the source hands it to `new Function('ctx', 'get', ...)` with the
caller's context bound to `ctx`, where the assignment writes the key
`foo` into the caller's context.  This theorem verifies that the failing
input reaches that unrestricted evaluation phase. -/
theorem C8_mutating_expression_reaches_unmodeled_eval :
    evaluateExpression "ctx.foo = 1" [] = .unmodeled "ctx.foo = 1" := rfl

/-! ## Claim C9 -/

theorem escapeBr_id (l : List Char) (h1 : subOf [bsl, obr] l = false)
    (h2 : subOf [bsl, cbr] l = false) : escapeBr l = l := by
  induction l using escapeBr.induct <;>
    simp_all [escapeBr, subOf, List.isPrefixOf]

theorem fuvAux_sub : ∀ (l : List Char) (b : Bool), fuvAux b l = true →
    subOf [obr, obr] ((if b then [obr] else []) ++ l) = true := by
  intro l
  induction l with
  | nil => intro b h; simp [fuvAux] at h
  | cons c r ih =>
    intro b h
    simp only [fuvAux, Bool.or_eq_true, Bool.and_eq_true] at h
    rcases h with ⟨⟨hb, hc⟩, _⟩ | h
    · subst hb
      simp only [decide_eq_true_eq] at hc
      subst hc
      simp [subOf, List.isPrefixOf]
    · have := ih (c = obr) h
      by_cases hc : c = obr
      · subst hc
        simp at this
        cases b <;> simp_all [subOf]
      · rw [if_neg (by simp [hc])] at this
        cases b <;> simp_all [subOf]

theorem fubAux_sub : ∀ (l : List Char) (b : Bool), fubAux b l = true →
    subOf [obr, pct] ((if b then [obr] else []) ++ l) = true := by
  intro l
  induction l with
  | nil => intro b h; simp [fubAux] at h
  | cons c r ih =>
    intro b h
    simp only [fubAux, Bool.or_eq_true, Bool.and_eq_true] at h
    rcases h with ⟨⟨hb, hc⟩, _⟩ | h
    · subst hb
      simp only [decide_eq_true_eq] at hc
      subst hc
      simp [subOf, List.isPrefixOf]
    · have := ih (c = obr) h
      by_cases hc : c = obr
      · subst hc
        simp at this
        cases b <;> simp_all [subOf]
      · rw [if_neg (by simp [hc])] at this
        cases b <;> simp_all [subOf]

theorem matchAt_none (l : List Char)
    (h1 : [obr, obr].isPrefixOf l = false)
    (h2 : [obr, pct].isPrefixOf l = false) : matchAt l = none := by
  match l with
  | [] => rfl
  | [c] => rfl
  | c1 :: c2 :: r =>
    by_cases hA : c1 = obr
    · by_cases hB : c2 = obr
      · subst hA; subst hB; simp [List.isPrefixOf] at h1
      · by_cases hC : c2 = pct
        · subst hA; subst hC; simp [List.isPrefixOf] at h2
        · simp [matchAt, hA, hB, hC]
    · simp [matchAt, hA]

theorem findMatch_none (l : List Char)
    (h1 : subOf [obr, obr] l = false)
    (h2 : subOf [obr, pct] l = false) : findMatch l = none := by
  induction l with
  | nil => rfl
  | cons c r ih =>
    simp only [subOf, Bool.or_eq_false_iff] at h1 h2
    simp only [findMatch, matchAt_none _ h1.1 h2.1, ih h1.2 h2.2]

theorem replAux_id (pat : List Char) (rep : Char) :
    ∀ l : List Char, subOf pat l = false → replAux pat rep 0 l = l := by
  intro l
  induction l with
  | nil => intro h; rfl
  | cons c r ih =>
    intro h
    simp only [subOf, Bool.or_eq_false_iff] at h
    simp only [replAux, h.1, Bool.false_eq_true, if_false, ih h.2]

theorem restore_id (l : List Char) (h5 : subOf sentO l = false)
    (h6 : subOf sentC l = false) : restore l = l := by
  unfold restore
  rw [replAux_id _ _ _ h5, replAux_id _ _ _ h6]

/-- C9 (amended): for every template `t` containing no `\x7b\x7b`, no
`\x7b%`, no escaped-brace sequence (backslash followed by a brace), and
no occurrence of the tokenizer's internal NUL-delimited sentinel strings,
and every context, `render t ctx` returns `t` unchanged.  The original
claim only excluded variable/block markers; the escape feature makes a
backslash-brace render as a bare brace, and a template containing a raw
sentinel string is also rewritten, so those exclusions are forced (see
the counterexample). -/
theorem C9_literal_roundtrip (t : String) (ctx : Ctx)
    (h1 : strContains t "\x7b\x7b" = false)
    (h2 : strContains t "\x7b%" = false)
    (h3 : strContains t "\\\x7b" = false)
    (h4 : strContains t "\\\x7d" = false)
    (h5 : strContains t (String.mk sentO) = false)
    (h6 : strContains t (String.mk sentC) = false) :
    render t ctx = .ok t := by
  unfold strContains at h1 h2 h3 h4 h5 h6
  have e1 : subOf [obr, obr] t.data = false := by
    have d : "\x7b\x7b".data = [obr, obr] := by decide
    rw [← d]; exact h1
  have e2 : subOf [obr, pct] t.data = false := by
    have d : "\x7b%".data = [obr, pct] := by decide
    rw [← d]; exact h2
  have e3 : subOf [bsl, obr] t.data = false := by
    have d : "\\\x7b".data = [bsl, obr] := by decide
    rw [← d]; exact h3
  have e4 : subOf [bsl, cbr] t.data = false := by
    have d : "\\\x7d".data = [bsl, cbr] := by decide
    rw [← d]; exact h4
  have e5 : subOf sentO t.data = false := by
    have d : (String.mk sentO).data = sentO := rfl
    rw [← d]; exact h5
  have e6 : subOf sentC t.data = false := by
    have d : (String.mk sentC).data = sentC := rfl
    rw [← d]; exact h6
  have hesc : escapeBr t.data = t.data := escapeBr_id _ e3 e4
  have hfuv : fuvAux false t.data = false := by
    cases hf : fuvAux false t.data
    · rfl
    · exfalso
      have := fuvAux_sub t.data false hf
      simp at this
      rw [e1] at this
      exact Bool.noConfusion this
  have hfub : fubAux false t.data = false := by
    cases hf : fubAux false t.data
    · rfl
    · exfalso
      have := fubAux_sub t.data false hf
      simp at this
      rw [e2] at this
      exact Bool.noConfusion this
  have hfm : findMatch t.data = none := findMatch_none _ e1 e2
  have hrest : restore t.data = t.data := restore_id _ e5 e6
  have hmk : String.mk t.data = t := by cases t; rfl
  have htok : tokenize t = .ok (if t.data.isEmpty then [] else [Tok.text t]) := by
    unfold tokenize
    simp only [hesc, hfuv, hfub, Bool.false_eq_true, if_false]
    simp only [tokLoopF, hfm, hrest, hmk]
    by_cases he : t.data.isEmpty
    · simp [he, vmb]
    · simp [he, vmb]
  by_cases he : t.data.isEmpty
  · have ht0 : t = "" := by
      cases t
      simp only [List.isEmpty_iff] at he
      simp [he]
    subst ht0
    rw [render_eq_of "" [] [] ctx (by simpa using htok) (by rfl)]
    simp [evaluate]
  · have hparse : parse [Tok.text t] = .ok [Node.textN t] := by rfl
    rw [render_eq_of t [Tok.text t] [Node.textN t] ctx (by simpa [he] using htok) hparse]
    simp [evaluate, evaluateNode]

/-- Counterexample to C9 as stated: the template consisting of a
backslash followed by an open brace contains no variable or block
marker, yet renders as a bare open brace, not as itself. -/
theorem C9_counterexample :
    render "\\\x7b" [] = .ok "\x7b" ∧ ("\x7b" : String) ≠ "\\\x7b" := by
  constructor
  · rw [render_eq_of "\\\x7b" [Tok.text "\x7b"] [Node.textN "\x7b"] [] (by rfl) (by rfl)]
    simp [evaluate, evaluateNode]
  · decide

/-- Witness for C9 at a concrete marker-free template. -/
theorem C9_witness :
    render "plain text, no markers" [("v", vNum 3)] = .ok "plain text, no markers" :=
  C9_literal_roundtrip "plain text, no markers" [("v", vNum 3)]
    (by decide) (by decide) (by decide) (by decide) (by decide) (by decide)

/-! ## Claim C7 -/

theorem digitCh_isDigit (n : Nat) : (digitCh n).isDigit = true := by
  unfold digitCh
  have h : n % 10 < 10 := Nat.mod_lt _ (by norm_num)
  set k := n % 10 with hk
  interval_cases k <;> decide

theorem natDecAux_digits : ∀ (f n : Nat), ∀ c ∈ natDecAux f n, c.isDigit = true := by
  intro f
  induction f with
  | zero => intro n c hc; simp [natDecAux] at hc
  | succ f ih =>
    intro n c hc
    simp only [natDecAux] at hc
    by_cases hn : n < 10
    · rw [if_pos hn] at hc
      simp at hc
      subst hc
      exact digitCh_isDigit n
    · rw [if_neg hn] at hc
      rcases List.mem_append.mp hc with h | h
      · exact ih _ _ h
      · simp at h
        subst h
        exact digitCh_isDigit n

theorem natDec_digits (n : Nat) : ∀ c ∈ natDec n, c.isDigit = true :=
  natDecAux_digits (n + 1) n

theorem subOf_false_of_head (a : Char) (w l : List Char)
    (hd : ∀ c ∈ l, c.isDigit = true) (ha : a.isDigit = false) :
    subOf (a :: w) l = false := by
  induction l with
  | nil => rfl
  | cons c r ih =>
    simp only [subOf, Bool.or_eq_false_iff]
    constructor
    · simp only [List.isPrefixOf, Bool.and_eq_false_iff]
      left
      have hc : c.isDigit = true := hd c (by simp)
      rcases eq_or_ne a c with h | h
      · subst h; rw [hc] at ha; exact Bool.noConfusion ha
      · simp [beq_eq_false_iff_ne, h]
    · exact ih (fun c hc => hd c (by simp [hc]))

theorem escChar_digit (c : Char) (h : c.isDigit = true) : escChar c = [c] := by
  unfold escChar
  have hne : ∀ d : Char, d.isDigit = false → ¬(c = d) := by
    intro d hdd hcd
    subst hcd
    rw [h] at hdd
    exact Bool.noConfusion hdd
  rw [if_neg (hne '&' (by decide)), if_neg (hne '<' (by decide)),
      if_neg (hne '>' (by decide)), if_neg (hne dqC (by decide)),
      if_neg (hne sqC (by decide)), if_neg (hne '/' (by decide)),
      if_neg (hne ':' (by decide))]

theorem mapEsc_digit_id (l : List Char) (hd : ∀ c ∈ l, c.isDigit = true) :
    mapEsc escChar l = l := by
  induction l with
  | nil => rfl
  | cons c r ih =>
    simp only [mapEsc, escChar_digit c (hd c (by simp))]
    simp [ih (fun c hc => hd c (by simp [hc]))]

theorem mapEscEq_digit_id (l : List Char) (hd : ∀ c ∈ l, c.isDigit = true) :
    mapEsc eqSub l = l := by
  induction l with
  | nil => rfl
  | cons c r ih =>
    have hne : ¬(c = '=') := by
      intro hc
      subst hc
      exact Bool.noConfusion (hd '=' (by simp))
    simp only [mapEsc, eqSub, if_neg hne]
    simp [ih (fun c hc => hd c (by simp [hc]))]

theorem contains_false_of_digits (l : List Char) (a : Char)
    (hd : ∀ c ∈ l, c.isDigit = true) (ha : a.isDigit = false) :
    l.contains a = false := by
  induction l with
  | nil => rfl
  | cons c r ih =>
    have hcr : (c :: r).contains a = (a == c || r.contains a) := rfl
    rw [hcr]
    have hc : c.isDigit = true := hd c (by simp)
    have hne : ¬(a = c) := by
      intro h; subst h; rw [hc] at ha; exact Bool.noConfusion ha
    have hbeq : (a == c) = false := by simp [beq_eq_false_iff_ne, hne]
    rw [hbeq, Bool.false_or]
    exact ih (fun x hx => hd x (by simp [hx]))

theorem escapeHtmlStr_digits (l : List Char) (hd : ∀ c ∈ l, c.isDigit = true) :
    escapeHtmlStr (String.mk l) = String.mk l := by
  have hany : entityPats.any (fun p => subOf p l) = false := by
    simp only [entityPats, List.any_cons, List.any_nil, Bool.or_eq_false_iff]
    refine ⟨?_, ?_, ?_, ?_, ?_, ?_, ?_, ?_, trivial⟩ <;>
      exact subOf_false_of_head _ _ _ hd (by decide)
  have hlt : l.contains '<' = false := contains_false_of_digits _ _ hd (by decide)
  have hon : ("onclick=".data.isPrefixOf l) = false := by
    have hsplit : "onclick=".data = 'o' :: "nclick=".data := rfl
    rw [hsplit]
    cases l with
    | nil => rfl
    | cons c r =>
      have hc : c.isDigit = true := hd c (by simp)
      have hne : ('o' == c) = false := by
        have : ¬('o' = c) := by
          intro h; rw [← h] at hc; exact Bool.noConfusion hc
        simp [beq_eq_false_iff_ne, this]
      simp [List.isPrefixOf, hne]
  have hm1 : mapEsc escChar l = l := mapEsc_digit_id l hd
  have hm2 : mapEsc eqSub l = l := mapEscEq_digit_id l hd
  have hdata : (String.mk l).data = l := rfl
  simp only [escapeHtmlStr, hdata, hany, hlt, hon, hm1, hm2,
    Bool.false_and, Bool.and_false, Bool.false_eq_true, if_false]

theorem escapeHtml_digits (i : Nat) :
    escapeHtml (vNum (i : Int)) = String.mk (natDec i) := by
  have hjs : jsToString (vNum (i : Int)) = String.mk (natDec i) := by
    simp only [jsToString, intDec]
    rw [if_neg (by omega)]
    simp
  unfold escapeHtml
  rw [show isNullish (vNum (i : Int)) = false from rfl]
  simp only [Bool.false_eq_true, if_false]
  rw [hjs]
  exact escapeHtmlStr_digits (natDec i) (natDec_digits i)

/-- Concatenation of a list of strings in order. -/
def joinAll : List String → String
  | [] => ""
  | s :: t => s ++ joinAll t

theorem loop_var_i (ctx : Ctx) : ∀ (el : List JSValue) (i n : Nat),
    evaluateArrayLoop [Node.varN "i"] "x" (some "i") n i el ctx =
      .ok (joinAll ((List.range el.length).map (fun j => String.mk (natDec (i + j)))), ctx) := by
  intro el
  induction el with
  | nil => intro i n; simp [evaluateArrayLoop, joinAll]
  | cons v rest ih =>
    intro i n
    have he : evaluateExpression "i" (mkLoopCtx ctx "x" (some "i") v i n) = .val (vNum i) := rfl
    have hev : evaluate [Node.varN "i"] (mkLoopCtx ctx "x" (some "i") v i n) =
        .ok (String.mk (natDec i), mkLoopCtx ctx "x" (some "i") v i n) := by
      simp [evaluate, evaluateNode, he, isNullish, escapeHtml_digits]
    simp only [evaluateArrayLoop, hev, ih (i + 1) n]
    rw [List.length_cons, List.range_succ_eq_map]
    have hmap : (List.range rest.length).map ((fun j => String.mk (natDec (i + j))) ∘ Nat.succ) =
        (List.range rest.length).map (fun j => String.mk (natDec (i + 1 + j))) := by
      apply List.map_congr_left
      intro a _
      simp only [Function.comp]
      have hadd : i + Nat.succ a = i + 1 + a := by omega
      rw [hadd]
    simp only [List.map_cons, List.map_map, hmap, joinAll, Nat.add_zero]

theorem renderForIdx (xs : List JSValue) :
    render "\x7b% for x,i in xs %\x7d\x7b\x7bi\x7d\x7d\x7b% endfor %\x7d" [("xs", vArr xs)] =
      .ok (joinAll ((List.range xs.length).map (fun j => String.mk (natDec j)))) := by
  have ht : tokenize "\x7b% for x,i in xs %\x7d\x7b\x7bi\x7d\x7d\x7b% endfor %\x7d" =
      .ok [Tok.forStart "x,i in xs", Tok.varT "i", Tok.forEnd] := by rfl
  have hp : parse [Tok.forStart "x,i in xs", Tok.varT "i", Tok.forEnd] =
      .ok [Node.forN "x" (some "i") "xs" [Node.varN "i"]] := by rfl
  rw [render_eq_of _ _ _ _ ht hp]
  have he : evaluateExpression "xs" [("xs", vArr xs)] = .val (vArr xs) := rfl
  have hloop := loop_var_i [("xs", vArr xs)] xs 0 xs.length
  simp only [Nat.zero_add] at hloop
  simp [evaluate, evaluateNode, he, isNullish, hloop]

/-- C7: for every array `xs` of length `n`, rendering
`\x7b% for x,i in xs %\x7d\x7b\x7bi\x7d\x7d\x7b% endfor %\x7d` emits exactly the decimal
indices `0, 1, ..., n-1` concatenated in order, and for `n = 0` it emits
the empty string. -/
theorem C7_loop_emits_indices :
    (∀ xs : List JSValue,
      render "\x7b% for x,i in xs %\x7d\x7b\x7bi\x7d\x7d\x7b% endfor %\x7d" [("xs", vArr xs)] =
        .ok (joinAll ((List.range xs.length).map (fun j => String.mk (natDec j))))) ∧
    render "\x7b% for x,i in xs %\x7d\x7b\x7bi\x7d\x7d\x7b% endfor %\x7d" [("xs", vArr [])] =
      .ok "" :=
  ⟨renderForIdx, (renderForIdx []).trans (by rfl)⟩

/-! ## Claim C5 -/

/-- Balanced token streams: the exact streams the recursive descent
accepts.  Every `ifStart` has a non-blank condition and a matching
`ifEnd` (with at most one `els` between the two bodies), every
`forStart` has a well-formed loop header and a matching `forEnd`, all in
stack-nested order. -/
inductive Bal : List Tok → Prop where
  | nil : Bal []
  | text (s : String) (ts : List Tok) : Bal ts → Bal (.text s :: ts)
  | varT (s : String) (ts : List Tok) : Bal ts → Bal (.varT s :: ts)
  | ifNoElse (c : String) (body ts : List Tok) :
      strTrim c ≠ "" → Bal body → Bal ts → Bal (.ifStart c :: body ++ .ifEnd :: ts)
  | ifElse (c : String) (body eb ts : List Tok) :
      strTrim c ≠ "" → Bal body → Bal eb → Bal ts →
      Bal (.ifStart c :: body ++ .els :: eb ++ .ifEnd :: ts)
  | forB (sp : String) (body ts : List Tok) :
      (parseForHeader sp).isSome = true → Bal body → Bal ts →
      Bal (.forStart sp :: body ++ .forEnd :: ts)

/-- The token-list shapes at which `parseNodesF` stops and returns to its
caller: the empty stream or a leading block terminator. -/
def headTerm : List Tok → Prop
  | [] => True
  | .els :: _ => True
  | .ifEnd :: _ => True
  | .forEnd :: _ => True
  | _ => False

theorem balParse : ∀ (ts : List Tok), Bal ts → ∀ (k : List Tok) (fuel : Nat),
    headTerm k → (ts ++ k).length < fuel →
    ∃ ns, parseNodesF fuel (ts ++ k) = .ok (ns, k) := by
  intro ts hb
  induction hb with
  | nil =>
    intro k fuel hk hf
    match fuel, hf with
    | f + 1, _ =>
      match k, hk with
      | [], _ => exact ⟨[], rfl⟩
      | .els :: r, _ => exact ⟨[], rfl⟩
      | .ifEnd :: r, _ => exact ⟨[], rfl⟩
      | .forEnd :: r, _ => exact ⟨[], rfl⟩
  | text s ts hts ih =>
    intro k fuel hk hf
    match fuel, hf with
    | f + 1, hf =>
      obtain ⟨ns, hns⟩ := ih k f hk (by simp at hf ⊢; omega)
      exact ⟨.textN s :: ns, by simp [parseNodesF, hns]⟩
  | varT s ts hts ih =>
    intro k fuel hk hf
    match fuel, hf with
    | f + 1, hf =>
      obtain ⟨ns, hns⟩ := ih k f hk (by simp at hf ⊢; omega)
      exact ⟨.varN s :: ns, by simp [parseNodesF, hns]⟩
  | ifNoElse c body ts hc hbody hts ihb iht =>
    intro k fuel hk hf
    match fuel, hf with
    | f + 1, hf =>
      have hlist : (Tok.ifStart c :: body ++ Tok.ifEnd :: ts) ++ k =
          Tok.ifStart c :: (body ++ (Tok.ifEnd :: (ts ++ k))) := by
        simp
      rw [hlist]
      obtain ⟨bns, hbns⟩ := ihb (Tok.ifEnd :: (ts ++ k)) f trivial (by simp at hf ⊢; omega)
      obtain ⟨ns2, hns2⟩ := iht k f hk (by simp at hf ⊢; omega)
      refine ⟨.ifN (strTrim c) bns [] :: ns2, ?_⟩
      simp only [parseNodesF, if_neg hc, hbns, hns2]
  | ifElse c body eb ts hc hbody heb hts ihb ihe iht =>
    intro k fuel hk hf
    match fuel, hf with
    | f + 1, hf =>
      have hlist : (Tok.ifStart c :: body ++ Tok.els :: eb ++ Tok.ifEnd :: ts) ++ k =
          Tok.ifStart c :: (body ++ (Tok.els :: (eb ++ (Tok.ifEnd :: (ts ++ k))))) := by
        simp
      rw [hlist]
      obtain ⟨bns, hbns⟩ :=
        ihb (Tok.els :: (eb ++ (Tok.ifEnd :: (ts ++ k)))) f trivial (by simp at hf ⊢; omega)
      obtain ⟨ens, hens⟩ := ihe (Tok.ifEnd :: (ts ++ k)) f trivial (by simp at hf ⊢; omega)
      obtain ⟨ns2, hns2⟩ := iht k f hk (by simp at hf ⊢; omega)
      refine ⟨.ifN (strTrim c) bns ens :: ns2, ?_⟩
      simp only [parseNodesF, if_neg hc, hbns, hens, hns2]
  | forB sp body ts hh hbody hts ihb iht =>
    intro k fuel hk hf
    match fuel, hf with
    | f + 1, hf =>
      have hlist : (Tok.forStart sp :: body ++ Tok.forEnd :: ts) ++ k =
          Tok.forStart sp :: (body ++ (Tok.forEnd :: (ts ++ k))) := by
        simp
      rw [hlist]
      obtain ⟨⟨item, idx, iter⟩, hhd⟩ := Option.isSome_iff_exists.mp hh
      obtain ⟨bns, hbns⟩ := ihb (Tok.forEnd :: (ts ++ k)) f trivial (by simp at hf ⊢; omega)
      obtain ⟨ns2, hns2⟩ := iht k f hk (by simp at hf ⊢; omega)
      refine ⟨.forN item idx iter bns :: ns2, ?_⟩
      simp only [parseNodesF, hhd, hbns, hns2]

theorem parseBal : ∀ (fuel : Nat) (ts : List Tok) (ns : List Node) (r : List Tok),
    parseNodesF fuel ts = .ok (ns, r) → headTerm r ∧ ∃ pre, ts = pre ++ r ∧ Bal pre := by
  intro fuel
  induction fuel with
  | zero =>
    intro ts ns r h
    exact absurd h (by simp [parseNodesF])
  | succ f ih =>
    intro ts ns r h
    match ts with
    | [] =>
      simp only [parseNodesF, Except.ok.injEq, Prod.mk.injEq] at h
      obtain ⟨-, hr⟩ := h
      subst hr
      exact ⟨trivial, [], rfl, Bal.nil⟩
    | .text s :: rest =>
      simp only [parseNodesF] at h
      cases heq : parseNodesF f rest with
      | error e => rw [heq] at h; exact absurd h (by simp)
      | ok p =>
        obtain ⟨ns2, r2⟩ := p
        rw [heq] at h
        cases h
        obtain ⟨hterm, pre2, hpre, hbal⟩ := ih rest ns2 r heq
        exact ⟨hterm, .text s :: pre2, by simp [hpre], Bal.text s pre2 hbal⟩
    | .varT s :: rest =>
      simp only [parseNodesF] at h
      cases heq : parseNodesF f rest with
      | error e => rw [heq] at h; exact absurd h (by simp)
      | ok p =>
        obtain ⟨ns2, r2⟩ := p
        rw [heq] at h
        cases h
        obtain ⟨hterm, pre2, hpre, hbal⟩ := ih rest ns2 r heq
        exact ⟨hterm, .varT s :: pre2, by simp [hpre], Bal.varT s pre2 hbal⟩
    | .els :: rest =>
      simp only [parseNodesF] at h
      cases h
      exact ⟨trivial, [], rfl, Bal.nil⟩
    | .ifEnd :: rest =>
      simp only [parseNodesF] at h
      cases h
      exact ⟨trivial, [], rfl, Bal.nil⟩
    | .forEnd :: rest =>
      simp only [parseNodesF] at h
      cases h
      exact ⟨trivial, [], rfl, Bal.nil⟩
    | .ifStart c :: rest =>
      simp only [parseNodesF] at h
      by_cases hc : strTrim c = ""
      · rw [if_pos hc] at h; exact absurd h (by simp)
      · rw [if_neg hc] at h
        cases h1 : parseNodesF f rest with
        | error e => rw [h1] at h; exact absurd h (by simp)
        | ok p =>
          obtain ⟨body, r1⟩ := p
          rw [h1] at h
          obtain ⟨-, pre1, hpre1, hbal1⟩ := ih rest body r1 h1
          cases r1 with
          | nil => exact absurd h (by simp)
          | cons t1 r2 =>
            cases t1 with
            | text s => exact absurd h (by simp)
            | varT s => exact absurd h (by simp)
            | ifStart s => exact absurd h (by simp)
            | forStart s => exact absurd h (by simp)
            | forEnd => exact absurd h (by simp)
            | els =>
              simp only [] at h
              cases h2 : parseNodesF f r2 with
              | error e => rw [h2] at h; exact absurd h (by simp)
              | ok q =>
                obtain ⟨eb, r3⟩ := q
                rw [h2] at h
                obtain ⟨-, pre2, hpre2, hbal2⟩ := ih r2 eb r3 h2
                cases r3 with
                | nil => exact absurd h (by simp)
                | cons t3 r4 =>
                  cases t3 with
                  | text s => exact absurd h (by simp)
                  | varT s => exact absurd h (by simp)
                  | ifStart s => exact absurd h (by simp)
                  | forStart s => exact absurd h (by simp)
                  | forEnd => exact absurd h (by simp)
                  | els => exact absurd h (by simp)
                  | ifEnd =>
                    simp only [] at h
                    cases h3 : parseNodesF f r4 with
                    | error e => rw [h3] at h; exact absurd h (by simp)
                    | ok w =>
                      obtain ⟨ns2, r5⟩ := w
                      rw [h3] at h
                      cases h
                      obtain ⟨hterm, pre3, hpre3, hbal3⟩ := ih r4 ns2 r h3
                      refine ⟨hterm, .ifStart c :: pre1 ++ .els :: pre2 ++ .ifEnd :: pre3, ?_, ?_⟩
                      · simp [hpre1, hpre2, hpre3]
                      · exact Bal.ifElse c pre1 pre2 pre3 hc hbal1 hbal2 hbal3
            | ifEnd =>
              simp only [] at h
              cases h3 : parseNodesF f r2 with
              | error e => rw [h3] at h; exact absurd h (by simp)
              | ok w =>
                obtain ⟨ns2, r5⟩ := w
                rw [h3] at h
                cases h
                obtain ⟨hterm, pre3, hpre3, hbal3⟩ := ih r2 ns2 r h3
                refine ⟨hterm, .ifStart c :: pre1 ++ .ifEnd :: pre3, ?_, ?_⟩
                · simp [hpre1, hpre3]
                · exact Bal.ifNoElse c pre1 pre3 hc hbal1 hbal3
    | .forStart sp :: rest =>
      simp only [parseNodesF] at h
      cases hh : parseForHeader sp with
      | none => rw [hh] at h; exact absurd h (by simp)
      | some trip =>
        obtain ⟨item, idx, iter⟩ := trip
        rw [hh] at h
        cases h1 : parseNodesF f rest with
        | error e => rw [h1] at h; exact absurd h (by simp)
        | ok p =>
          obtain ⟨body, r1⟩ := p
          rw [h1] at h
          obtain ⟨-, pre1, hpre1, hbal1⟩ := ih rest body r1 h1
          cases r1 with
          | nil => exact absurd h (by simp)
          | cons t1 r2 =>
            cases t1 with
            | text s => exact absurd h (by simp)
            | varT s => exact absurd h (by simp)
            | ifStart s => exact absurd h (by simp)
            | forStart s => exact absurd h (by simp)
            | els => exact absurd h (by simp)
            | ifEnd => exact absurd h (by simp)
            | forEnd =>
              simp only [] at h
              cases h3 : parseNodesF f r2 with
              | error e => rw [h3] at h; exact absurd h (by simp)
              | ok w =>
                obtain ⟨ns2, r5⟩ := w
                rw [h3] at h
                cases h
                obtain ⟨hterm, pre3, hpre3, hbal3⟩ := ih r2 ns2 r h3
                refine ⟨hterm, .forStart sp :: pre1 ++ .forEnd :: pre3, ?_, ?_⟩
                · simp [hpre1, hpre3]
                · exact Bal.forB sp pre1 pre3 (by simp [hh]) hbal1 hbal3

theorem parse_ok_iff_bal (ts : List Tok) : (∃ ns, parse ts = .ok ns) ↔ Bal ts := by
  constructor
  · rintro ⟨ns, h⟩
    unfold parse at h
    cases hp : parseNodesF (ts.length + 1) ts with
    | error e => rw [hp] at h; exact absurd h (by simp)
    | ok p =>
      obtain ⟨ns2, r⟩ := p
      rw [hp] at h
      obtain ⟨hterm, pre, hpre, hbal⟩ := parseBal _ _ _ _ hp
      cases r with
      | nil => simpa [hpre] using hbal
      | cons t rr =>
        cases t with
        | text s => exact hterm.elim
        | varT s => exact hterm.elim
        | ifStart s => exact hterm.elim
        | forStart s => exact hterm.elim
        | els => simp only [] at h; exact absurd h (by simp)
        | ifEnd => simp only [] at h; exact absurd h (by simp)
        | forEnd => simp only [] at h; exact absurd h (by simp)
  · intro hb
    obtain ⟨ns, h⟩ := balParse ts hb [] (ts.length + 1) trivial (by simp)
    refine ⟨ns, ?_⟩
    unfold parse
    rw [List.append_nil] at h
    rw [h]

/-- C5 (amended): for every template whose tokenization succeeds, the
parse stage succeeds exactly when the token stream is balanced in the
sense of `Bal`: every `if` has a non-blank condition and a matching
`endif` (with at most one `else`), every `for` has a loop header
matching the for-grammar and a matching `endfor`, all in stack-nested
order.  In particular every stream with a dangling unclosed `if`/`for`,
a stray terminator, or an end tag of the wrong kind for the innermost
open block is rejected (it is not `Bal`), and conversely.  The original
claim promised success from block balance alone, which fails for a
balanced `for` block whose header does not match the loop grammar (see
the counterexample). -/
theorem C5_parse_succeeds_iff_balanced (t : String) (ts : List Tok)
    (ht : tokenize t = .ok ts) :
    (∃ ns, parse ts = .ok ns) ↔ Bal ts :=
  parse_ok_iff_bal ts

/-- Witness for C5 at a concrete balanced template. -/
theorem C5_witness :
    tokenize "\x7b% if x %\x7da\x7b% endif %\x7d" =
      .ok [Tok.ifStart "x", Tok.text "a", Tok.ifEnd] ∧
    Bal [Tok.ifStart "x", Tok.text "a", Tok.ifEnd] ∧
    (∃ ns, parse [Tok.ifStart "x", Tok.text "a", Tok.ifEnd] = .ok ns) := by
  have ht : tokenize "\x7b% if x %\x7da\x7b% endif %\x7d" =
      .ok [Tok.ifStart "x", Tok.text "a", Tok.ifEnd] := by rfl
  have hbal : Bal [Tok.ifStart "x", Tok.text "a", Tok.ifEnd] :=
    Bal.ifNoElse "x" [Tok.text "a"] [] (by decide) (Bal.text "a" [] Bal.nil) Bal.nil
  exact ⟨ht, hbal, (C5_parse_succeeds_iff_balanced _ _ ht).mpr hbal⟩

/-- Counterexample to C5 as stated: `\x7b% for x %\x7d\x7b% endfor %\x7d` has one
`for` with a matching `endfor` in valid nesting, yet the pipeline throws
("Invalid for loop syntax") because the header `x` matches neither
loop-header grammar. -/
theorem C5_counterexample :
    tokenize "\x7b% for x %\x7d\x7b% endfor %\x7d" = .ok [Tok.forStart "x", Tok.forEnd] ∧
    parse [Tok.forStart "x", Tok.forEnd] = .error .invalidForSyntax ∧
    render "\x7b% for x %\x7d\x7b% endfor %\x7d" [] = .error (.parseE .invalidForSyntax) :=
  ⟨rfl, rfl, rfl⟩
